import Mathlib

/-!
# Verification of the weekly-reports trend pipeline

A shallow embedding of `script_files/weekly_reports.py`:

* Python `datetime` values are modelled by `DateTime`: a day number (days since
  1970-01-01, which was a Thursday) plus a time-of-day in milliseconds.
  `datetime.replace(hour=0, minute=0, second=0, microsecond=0)` zeroes the time
  component; `timedelta` day arithmetic shifts the day number; `datetime`
  comparison is lexicographic on (day, time).  `datetime.weekday()` is
  Monday = 0 .. Sunday = 6, so for a day number `d` it is `(d + 3) % 7`
  (Python's `%` on a positive modulus agrees with `Int.emod`).
* Calendar dates `(year, month, day)` are converted to and from day numbers
  with the standard civil-calendar algorithms (`days_from_civil`,
  `civil_from_days`); all intermediate divisions are taken at non-negative
  arguments for the dates of interest, where every integer-division
  convention agrees.
* The trend-store CSV is modelled by `CsvFile`: the number of leading header
  lines plus the parsed data rows.  Date cells hold ISO `YYYY-MM-DD` text,
  which compares equal exactly when the underlying dates are equal, so row
  keys are carried as day numbers.
* The per-month SQLite databases and the filesystem are modelled by `DbEnv`:
  whether a month's database file exists, and what a count query over it
  returns (`Except` models a raised `sqlite3.Error`).
-/

/-- A Python `datetime`: day number since 1970-01-01 plus time of day
(milliseconds past midnight; the exact unit is irrelevant, only zero /
non-zero and ordering matter). -/
structure DateTime where
  day : Int
  msec : Nat
deriving DecidableEq, Repr

instance : LE DateTime :=
  ⟨fun a b => a.day < b.day ∨ (a.day = b.day ∧ a.msec ≤ b.msec)⟩

instance (a b : DateTime) : Decidable (a ≤ b) :=
  inferInstanceAs (Decidable (a.day < b.day ∨ (a.day = b.day ∧ a.msec ≤ b.msec)))

theorem DateTime.le_def (a b : DateTime) :
    (a ≤ b) = (a.day < b.day ∨ (a.day = b.day ∧ a.msec ≤ b.msec)) := rfl

/-- Python `dt.replace(hour=0, minute=0, second=0, microsecond=0)`. -/
def normalizeMidnight (dt : DateTime) : DateTime := ⟨dt.day, 0⟩

/-- Python `dt - timedelta(days=n)`. -/
def subDays (dt : DateTime) (n : Int) : DateTime := ⟨dt.day - n, dt.msec⟩

/-- Python `dt + timedelta(days=n)`. -/
def addDays (dt : DateTime) (n : Int) : DateTime := ⟨dt.day + n, dt.msec⟩

/-- Python's `.weekday()` (Monday = 0 .. Sunday = 6) of a day number:
day 0 (1970-01-01) was a Thursday, weekday 3. -/
def weekdayOfDay (d : Int) : Int := (d + 3) % 7

/-- Python `dt.weekday()`. -/
def DateTime.weekday (dt : DateTime) : Int := weekdayOfDay dt.day

/-- Models `weekly_reports.get_one_week_behind`: start and end dates of the week that
ended most recently before the given date. -/
def get_one_week_behind (dt : DateTime) (week_end_day : Int) : DateTime × DateTime :=
  let dt_normalized := normalizeMidnight dt
  let days_since_end := (dt_normalized.weekday - week_end_day) % 7
  let week_end0 := subDays dt_normalized days_since_end
  let week_end := if dt_normalized ≤ week_end0 then subDays week_end0 7 else week_end0
  let week_start := subDays week_end 6
  (week_start, week_end)

/-- Closed form: the returned week end is the latest day number strictly below
`dt.day` congruent to the requested weekday, written with a single `% 7`. -/
theorem get_one_week_behind_eq (dt : DateTime) (W : Int) :
    get_one_week_behind dt W =
      (⟨dt.day - 1 - (dt.day + 2 - W) % 7 - 6, 0⟩, ⟨dt.day - 1 - (dt.day + 2 - W) % 7, 0⟩) := by
  unfold get_one_week_behind normalizeMidnight subDays DateTime.weekday weekdayOfDay
  dsimp only
  split
  case isTrue h =>
    simp only [DateTime.le_def] at h
    simp only [Prod.mk.injEq, DateTime.mk.injEq, and_true]
    omega
  case isFalse h =>
    simp only [DateTime.le_def] at h
    simp only [Prod.mk.injEq, DateTime.mk.injEq, and_true]
    omega

/-- Days since 1970-01-01 of a civil calendar date (Gregorian, proleptic).
Standard era-based algorithm; for the years used here every division is taken
at a non-negative argument, where Euclidean division agrees with the usual
truncating one. -/
def days_from_civil (y m d : Int) : Int :=
  let yAdj := if m ≤ 2 then y - 1 else y
  let era := (if 0 ≤ yAdj then yAdj else yAdj - 399) / 400
  let yoe := yAdj - era * 400
  let mp := if 2 < m then m - 3 else m + 9
  let doy := (153 * mp + 2) / 5 + d - 1
  let doe := yoe * 365 + yoe / 4 - yoe / 100 + doy
  era * 146097 + doe - 719468

/-- Civil calendar date `(year, month, day)` of a day number. -/
def civil_from_days (z0 : Int) : Int × Int × Int :=
  let z := z0 + 719468
  let era := (if 0 ≤ z then z else z - 146096) / 146097
  let doe := z - era * 146097
  let yoe := (doe - doe / 1460 + doe / 36524 - doe / 146096) / 365
  let y := yoe + era * 400
  let doy := doe - (365 * yoe + yoe / 4 - yoe / 100)
  let mp := (5 * doy + 2) / 153
  let d := doy - (153 * mp + 2) / 5 + 1
  let m := if mp < 10 then mp + 3 else mp - 9
  (if m ≤ 2 then y + 1 else y, m, d)

/-- Python `date.year` of a day number. -/
def yearOfDay (d : Int) : Int := (civil_from_days d).1

/-- Python `date.month` of a day number. -/
def monthOfDay (d : Int) : Int := (civil_from_days d).2.1

/-- The civil conversions agree on the sample dates used below, and day 0 is
1970-01-01, a Thursday. -/
theorem civil_conversions_check :
    days_from_civil 1970 1 1 = 0 ∧
    civil_from_days 0 = (1970, 1, 1) ∧
    civil_from_days (days_from_civil 2024 3 13) = (2024, 3, 13) ∧
    civil_from_days (days_from_civil 2024 2 26) = (2024, 2, 26) ∧
    weekdayOfDay 0 = 3 := by decide

/-- **C1.** For every reference datetime and week-end weekday `W ∈ [0,6]`,
`get_one_week_behind` returns a pair `(s, e)` where `e` is a midnight date,
its weekday is `W`, it is strictly before the reference day (so never the
reference's own day or later), it is the latest such day, and
`s = e - 6 days` (a 7-day inclusive window). -/
theorem get_one_week_behind_correct (R : DateTime) (W : Int)
    (h0 : 0 ≤ W) (h6 : W ≤ 6) :
    weekdayOfDay (get_one_week_behind R W).2.day = W ∧
    (get_one_week_behind R W).2.day < R.day ∧
    (get_one_week_behind R W).2.msec = 0 ∧
    (∀ d : Int, weekdayOfDay d = W → d < R.day → d ≤ (get_one_week_behind R W).2.day) ∧
    (get_one_week_behind R W).1 = subDays (get_one_week_behind R W).2 6 := by
  rw [get_one_week_behind_eq]
  unfold weekdayOfDay subDays
  dsimp only
  refine ⟨by omega, by omega, rfl, fun d hd hlt => ?_, rfl⟩
  unfold weekdayOfDay at hd
  omega

/-- Witness for C1 at the epoch reference date and `W = 6`. -/
theorem get_one_week_behind_correct_witness :
    weekdayOfDay (get_one_week_behind ⟨0, 0⟩ 6).2.day = 6 ∧
    (get_one_week_behind ⟨0, 0⟩ 6).2.day < (0 : Int) ∧
    (get_one_week_behind ⟨0, 0⟩ 6).2.msec = 0 ∧
    (∀ d : Int, weekdayOfDay d = 6 → d < (0 : Int) →
      d ≤ (get_one_week_behind ⟨0, 0⟩ 6).2.day) ∧
    (get_one_week_behind ⟨0, 0⟩ 6).1 = subDays (get_one_week_behind ⟨0, 0⟩ 6).2 6 :=
  get_one_week_behind_correct ⟨0, 0⟩ 6 (by decide) (by decide)

/-- **C8.** The spec's worked examples: from Wednesday 2024-03-13 with the week
ending on Sunday, the most recent completed week is 2024-03-04..2024-03-10;
from Sunday 2024-03-10 itself, the computation steps back a full week to
2024-02-26..2024-03-03. -/
theorem get_one_week_behind_spec_examples :
    weekdayOfDay (days_from_civil 2024 3 13) = 2 ∧
    weekdayOfDay (days_from_civil 2024 3 10) = 6 ∧
    get_one_week_behind ⟨days_from_civil 2024 3 13, 0⟩ 6 =
      (⟨days_from_civil 2024 3 4, 0⟩, ⟨days_from_civil 2024 3 10, 0⟩) ∧
    get_one_week_behind ⟨days_from_civil 2024 3 10, 0⟩ 6 =
      (⟨days_from_civil 2024 2 26, 0⟩, ⟨days_from_civil 2024 3 3, 0⟩) := by decide

/-- Models `weekly_reports.get_n_weeks_intervals`: one completed week per iteration,
stepping the reference date back by `timedelta(weeks=i)`, then reversed into
chronological order (oldest first). -/
def get_n_weeks_intervals (start_date : DateTime) (weeks_no : Nat) (week_end_day : Int) :
    List (DateTime × DateTime) :=
  ((List.range weeks_no).map
    (fun (i : Nat) =>
      get_one_week_behind (subDays start_date (7 * (i : Int))) week_end_day)).reverse

/-- Shifting the reference date back one week shifts the computed window back
one week. -/
theorem get_one_week_behind_subDays7 (R : DateTime) (W : Int) :
    get_one_week_behind (subDays R 7) W =
      (subDays (get_one_week_behind R W).1 7, subDays (get_one_week_behind R W).2 7) := by
  rw [get_one_week_behind_eq, get_one_week_behind_eq]
  unfold subDays
  simp only [Prod.mk.injEq, DateTime.mk.injEq, and_true]
  omega

/-- Peeling one window off `get_n_weeks_intervals`: the first `k` windows are
the windows computed from a reference one week earlier, and the newest window
is appended last. -/
theorem get_n_weeks_intervals_succ (R : DateTime) (k : Nat) (W : Int) :
    get_n_weeks_intervals R (k + 1) W =
      get_n_weeks_intervals (subDays R 7) k W ++ [get_one_week_behind R W] := by
  unfold get_n_weeks_intervals
  rw [List.range_succ_eq_map, List.map_cons, List.reverse_cons, List.map_map]
  have hzero : subDays R (7 * ((0 : Nat) : Int)) = R := by
    unfold subDays
    rw [DateTime.mk.injEq]
    exact ⟨by push_cast; ring, rfl⟩
  rw [hzero]
  have hfun : ((List.range k).map
        ((fun (i : Nat) => get_one_week_behind (subDays R (7 * (i : Int))) W) ∘ Nat.succ)) =
      ((List.range k).map
        (fun (i : Nat) => get_one_week_behind (subDays (subDays R 7) (7 * (i : Int))) W)) := by
    refine List.map_congr_left ?_
    intro i _
    rw [Function.comp_apply]
    have harg : subDays R (7 * ((Nat.succ i : Nat) : Int)) =
        subDays (subDays R 7) (7 * (i : Int)) := by
      unfold subDays
      rw [DateTime.mk.injEq]
      refine ⟨?_, rfl⟩
      push_cast
      ring
    rw [harg]
  rw [hfun]

/-- Consecutive windows are contiguous: the newer window starts the day after
the older one ends. -/
theorem consecutive_windows (R : DateTime) (W : Int) :
    (get_one_week_behind R W).1 = addDays (get_one_week_behind (subDays R 7) W).2 1 := by
  rw [get_one_week_behind_eq, get_one_week_behind_eq]
  unfold subDays addDays
  simp only [DateTime.mk.injEq, and_true]
  omega

/-- The newer of two consecutive windows ends strictly later. -/
theorem consecutive_windows_lt (R : DateTime) (W : Int) :
    (get_one_week_behind (subDays R 7) W).2.day < (get_one_week_behind R W).2.day := by
  rw [get_one_week_behind_eq, get_one_week_behind_eq]
  unfold subDays
  dsimp only
  omega

/-- Every produced window ends no later than the newest one, spans exactly
7 days, and consists of midnight dates. -/
theorem get_n_weeks_intervals_mem (R : DateTime) (k : Nat) (W : Int) :
    ∀ w ∈ get_n_weeks_intervals R k W,
      w.2.day ≤ (get_one_week_behind R W).2.day ∧
      w.1 = subDays w.2 6 ∧ w.1.msec = 0 ∧ w.2.msec = 0 := by
  induction k generalizing R with
  | zero =>
    intro w hw
    simp [get_n_weeks_intervals] at hw
  | succ k ih =>
    intro w hw
    rw [get_n_weeks_intervals_succ, List.mem_append] at hw
    rcases hw with hw | hw
    · have h1 := ih (subDays R 7) w hw
      have h2 := consecutive_windows_lt R W
      exact ⟨by omega, h1.2⟩
    · rw [List.mem_singleton] at hw
      subst hw
      rw [get_one_week_behind_eq]
      unfold subDays
      exact ⟨le_refl _, rfl, rfl, rfl⟩

/-- The last produced window is the most recently completed week. -/
theorem get_n_weeks_intervals_getLast (R : DateTime) (k : Nat) (W : Int) :
    (get_n_weeks_intervals R k W).getLast? =
      (if k = 0 then none else some (get_one_week_behind R W)) := by
  cases k with
  | zero => simp [get_n_weeks_intervals]
  | succ k =>
    rw [get_n_weeks_intervals_succ]
    simp

/-- The windows are contiguous: each starts the day after the previous ends. -/
theorem get_n_weeks_intervals_chain (R : DateTime) (k : Nat) (W : Int) :
    (get_n_weeks_intervals R k W).Chain' (fun w1 w2 => w2.1 = addDays w1.2 1) := by
  induction k generalizing R with
  | zero => simp [get_n_weeks_intervals]
  | succ k ih =>
    rw [get_n_weeks_intervals_succ, List.chain'_append]
    refine ⟨ih (subDays R 7), List.chain'_singleton _, ?_⟩
    intro x hx y hy
    simp only [List.head?_cons, Option.mem_def, Option.some.injEq] at hy
    subst hy
    rw [Option.mem_def, get_n_weeks_intervals_getLast] at hx
    rcases k with _ | k
    · exact absurd hx (by simp)
    · rw [if_neg (Nat.succ_ne_zero k), Option.some.injEq] at hx
      subst hx
      exact consecutive_windows R W

/-- The windows are strictly ascending by their end day. -/
theorem get_n_weeks_intervals_chain_lt (R : DateTime) (k : Nat) (W : Int) :
    (get_n_weeks_intervals R k W).Chain' (fun w1 w2 => w1.2.day < w2.2.day) := by
  induction k generalizing R with
  | zero => simp [get_n_weeks_intervals]
  | succ k ih =>
    rw [get_n_weeks_intervals_succ, List.chain'_append]
    refine ⟨ih (subDays R 7), List.chain'_singleton _, ?_⟩
    intro x hx y hy
    simp only [List.head?_cons, Option.mem_def, Option.some.injEq] at hy
    subst hy
    rw [Option.mem_def, get_n_weeks_intervals_getLast] at hx
    rcases k with _ | k
    · exact absurd hx (by simp)
    · rw [if_neg (Nat.succ_ne_zero k), Option.some.injEq] at hx
      subst hx
      exact consecutive_windows_lt R W

/-- **C3.** `get_n_weeks_intervals R k W` returns exactly `k` windows, in
ascending chronological order (strictly increasing end days), contiguous and
non-overlapping (each window starts exactly one day after the previous window
ends), and the last window equals `get_one_week_behind R W`. -/
theorem get_n_weeks_intervals_correct (R : DateTime) (k : Nat) (W : Int)
    (h0 : 0 ≤ W) (h6 : W ≤ 6) :
    (get_n_weeks_intervals R k W).length = k ∧
    (get_n_weeks_intervals R k W).Chain' (fun w1 w2 => w2.1 = addDays w1.2 1) ∧
    (get_n_weeks_intervals R k W).Chain' (fun w1 w2 => w1.2.day < w2.2.day) ∧
    (get_n_weeks_intervals R k W).getLast? =
      (if k = 0 then none else some (get_one_week_behind R W)) :=
  ⟨by simp [get_n_weeks_intervals], get_n_weeks_intervals_chain R k W,
    get_n_weeks_intervals_chain_lt R k W, get_n_weeks_intervals_getLast R k W⟩

/-- Witness for C3 at the epoch reference date, two windows, `W = 6`. -/
theorem get_n_weeks_intervals_correct_witness :
    (get_n_weeks_intervals ⟨0, 0⟩ 2 6).length = 2 ∧
    (get_n_weeks_intervals ⟨0, 0⟩ 2 6).Chain' (fun w1 w2 => w2.1 = addDays w1.2 1) ∧
    (get_n_weeks_intervals ⟨0, 0⟩ 2 6).Chain' (fun w1 w2 => w1.2.day < w2.2.day) ∧
    (get_n_weeks_intervals ⟨0, 0⟩ 2 6).getLast? =
      (if (2 : Nat) = 0 then none else some (get_one_week_behind ⟨0, 0⟩ 6)) :=
  get_n_weeks_intervals_correct ⟨0, 0⟩ 2 6 (by decide) (by decide)

/-- One parsed data row of a trend-store CSV: the two ISO date cells are
carried as day numbers (`YYYY-MM-DD` strings compare equal exactly when the
dates do), the count cell as a natural number. -/
structure TrendRow where
  week_start : Int
  week_end : Int
  attacks_count : Nat
deriving DecidableEq, Repr

/-- A trend-store CSV file: the number of leading header lines actually
written, plus the data rows in file order.  `csv.DictReader` yields exactly
`rows` for a file with a single leading header. -/
structure CsvFile where
  headers : Nat
  rows : List TrendRow
deriving DecidableEq, Repr

/-- The external per-month SQLite databases: whether
`database_{cust}_{month:02d}_{year}.sqlite` exists on disk, and what the
`COUNT(*)` query over the window's inclusive date range returns
(`Except.error` models a raised `sqlite3.Error`). -/
structure DbEnv where
  exists_db : String → Int → Int → Bool
  query : String → Int → Int → DateTime → DateTime → Except String Nat

/-- The row-key comparison used by both `check_week_exists_in_csv` and the
overwrite filter in `generate_weekly_reports`: equality of both formatted
date cells. -/
def matchKeyB (lws lwe : Int) (row : TrendRow) : Bool :=
  row.week_start == lws && row.week_end == lwe

/-- The day-by-day loop of `get_attacks_count_for_week` collecting the
`(year, month)` pairs of every day in `[current, week_end]`.  The loop
advances one day per iteration and stops as soon as `current > week_end`, so
`(week_end.day + 1 - current.day).toNat + 1` iterations of fuel always
suffice; structural fuel keeps the definition kernel-computable. -/
def collectMonthsAux : Nat → DateTime → DateTime → List (Int × Int)
  | 0, _, _ => []
  | fuel + 1, current, week_end =>
    if current ≤ week_end then
      (yearOfDay current.day, monthOfDay current.day) ::
        collectMonthsAux fuel (addDays current 1) week_end
    else []

/-- The `(year, month)` pairs of the days of the window, in day order, with
repetitions (deduplicated by the caller, as the Python set does). -/
def collectMonths (week_start week_end : DateTime) : List (Int × Int) :=
  collectMonthsAux ((week_end.day + 1 - week_start.day).toNat + 1) week_start week_end

/-- Models `weekly_reports.get_attacks_count_for_week`: sum the per-month query
results over the distinct months spanned by the window; a month whose
database file is absent is skipped, and a month whose query raises is caught
and skipped.  `months_to_check` is a Python `set`, whose iteration order is
unspecified; the fold visits the distinct months in first-seen order, which
fixes one such order (the total is order-independent, being a sum). -/
def get_attacks_count_for_week (env : DbEnv) (week_start week_end : DateTime)
    (cust_id : String) : Nat :=
  let months_to_check := (collectMonths week_start week_end).dedup
  months_to_check.foldl
    (fun total ym =>
      if env.exists_db cust_id ym.1 ym.2 then
        match env.query cust_id ym.1 ym.2 week_start week_end with
        | Except.ok count => total + count
        | Except.error _ => total
      else total) 0

/-- The contribution of a single month to the weekly total: its query result,
or 0 when its database file is absent or its query raises. -/
def monthContribution (env : DbEnv) (cust_id : String) (week_start week_end : DateTime)
    (ym : Int × Int) : Nat :=
  if env.exists_db cust_id ym.1 ym.2 then
    match env.query cust_id ym.1 ym.2 week_start week_end with
    | Except.ok count => count
    | Except.error _ => 0
  else 0

/-- The query fold accumulates exactly the sum of per-month contributions. -/
theorem get_attacks_foldl_eq (env : DbEnv) (cust_id : String)
    (week_start week_end : DateTime) :
    ∀ (l : List (Int × Int)) (n : Nat),
      l.foldl
        (fun total ym =>
          if env.exists_db cust_id ym.1 ym.2 then
            match env.query cust_id ym.1 ym.2 week_start week_end with
            | Except.ok count => total + count
            | Except.error _ => total
          else total) n =
      n + (l.map (monthContribution env cust_id week_start week_end)).sum := by
  intro l
  induction l with
  | nil =>
    intro n
    simp
  | cons x xs ih =>
    intro n
    rw [List.foldl_cons, List.map_cons, List.sum_cons, ih]
    unfold monthContribution
    split
    case isTrue h =>
      cases hq : env.query cust_id x.1 x.2 week_start week_end with
      | ok c =>
        dsimp only
        ring
      | error e =>
        dsimp only
        ring
    case isFalse h => ring

/-- An environment where only the February 1970 database exists (and answers
5); used for the spec's two-month scenario. -/
def envJanAbsent : DbEnv :=
  ⟨fun _ y m => y == 1970 && m == 2, fun _ _ _ _ _ => Except.ok 5⟩

/-- **C7.** `get_attacks_count_for_week` queries one source per distinct
`(year, month)` spanned by the window's days and returns the sum of their
contributions, where an absent or erroring month contributes 0 by definition
of `monthContribution`; concretely, the window 1970-01-29..1970-02-04 spans
January and February 1970, and with the January database absent the query
still returns February's count of 5. -/
theorem get_attacks_count_for_week_correct (env : DbEnv) (week_start week_end : DateTime)
    (cust_id : String) :
    get_attacks_count_for_week env week_start week_end cust_id =
      (((collectMonths week_start week_end).dedup).map
        (monthContribution env cust_id week_start week_end)).sum ∧
    (collectMonths ⟨28, 0⟩ ⟨34, 0⟩).dedup = [(1970, 1), (1970, 2)] ∧
    envJanAbsent.exists_db "EA" 1970 1 = false ∧
    get_attacks_count_for_week envJanAbsent ⟨28, 0⟩ ⟨34, 0⟩ "EA" = 5 := by
  refine ⟨?_, by decide, by decide, by decide⟩
  unfold get_attacks_count_for_week
  rw [get_attacks_foldl_eq]
  omega

/-- Models `weekly_reports.check_week_exists_in_csv`: `False` when the file does not
exist, otherwise whether some data row's two date cells both match. -/
def check_week_exists_in_csv (week_start week_end : DateTime)
    (store : Option CsvFile) : Bool :=
  match store with
  | none => false
  | some f => f.rows.any (fun row => matchKeyB week_start.day week_end.day row)

/-- **C10.** For every window key, an absent trend store makes
`check_week_exists_in_csv` return `False` (rather than raising). -/
theorem check_week_exists_absent_store (week_start week_end : DateTime) :
    check_week_exists_in_csv week_start week_end none = false := rfl

/-- Insert an element into a list sorted by `key`, before the first element
whose key is not smaller.  Inserting from the right end of the original list
this places each element after earlier elements with an equal key: a stable
insertion. -/
def insertSorted (key : α → Int) (a : α) : List α → List α
  | [] => [a]
  | b :: bs => if key b < key a then b :: insertSorted key a bs else a :: b :: bs

/-- Stable sort by an integer key.  Models Python's stable `list.sort(key=…)`:
a stable sort's output — the unique permutation ordered by the key that keeps
the original relative order of equal keys — does not depend on the algorithm,
so this insertion sort computes the same function as Python's timsort. -/
def sortByKey (key : α → Int) : List α → List α
  | [] => []
  | a :: as => insertSorted key a (sortByKey key as)

theorem insertSorted_perm (key : α → Int) (a : α) (l : List α) :
    (insertSorted key a l).Perm (a :: l) := by
  induction l with
  | nil => exact List.Perm.refl _
  | cons b bs ih =>
    unfold insertSorted
    split
    · exact ((ih.cons b).trans (List.Perm.swap a b bs)).symm.symm
    · exact List.Perm.refl _

theorem sortByKey_perm (key : α → Int) (l : List α) : (sortByKey key l).Perm l := by
  induction l with
  | nil => exact List.Perm.refl _
  | cons a as ih =>
    unfold sortByKey
    exact (insertSorted_perm key a (sortByKey key as)).trans (ih.cons a)

theorem insertSorted_pairwise (key : α → Int) (a : α) (l : List α)
    (h : l.Pairwise (fun x y => key x ≤ key y)) :
    (insertSorted key a l).Pairwise (fun x y => key x ≤ key y) := by
  induction l with
  | nil => exact List.pairwise_singleton _ a
  | cons b bs ih =>
    rw [List.pairwise_cons] at h
    unfold insertSorted
    split
    case isTrue hb =>
      rw [List.pairwise_cons]
      refine ⟨?_, ih h.2⟩
      intro y hy
      have hy' := (insertSorted_perm key a bs).mem_iff.mp hy
      rw [List.mem_cons] at hy'
      rcases hy' with hy' | hy'
      · rw [hy']
        exact le_of_lt hb
      · exact h.1 y hy'
    case isFalse hb =>
      rw [List.pairwise_cons]
      refine ⟨?_, by rw [List.pairwise_cons]; exact h⟩
      intro y hy
      rw [List.mem_cons] at hy
      rcases hy with hy | hy
      · rw [hy]
        exact le_of_not_lt hb
      · exact le_trans (le_of_not_lt hb) (h.1 y hy)

theorem sortByKey_pairwise (key : α → Int) (l : List α) :
    (sortByKey key l).Pairwise (fun x y => key x ≤ key y) := by
  induction l with
  | nil => exact List.Pairwise.nil
  | cons a as ih =>
    unfold sortByKey
    exact insertSorted_pairwise key a _ ih

theorem insertSorted_of_le (key : α → Int) (a : α) (l : List α)
    (h : ∀ y ∈ l, key a ≤ key y) : insertSorted key a l = a :: l := by
  cases l with
  | nil => rfl
  | cons b bs =>
    unfold insertSorted
    rw [if_neg (not_lt.mpr (h b (List.mem_cons_self b bs)))]

theorem sortByKey_of_pairwise (key : α → Int) (l : List α)
    (h : l.Pairwise (fun x y => key x ≤ key y)) : sortByKey key l = l := by
  induction l with
  | nil => rfl
  | cons a as ih =>
    rw [List.pairwise_cons] at h
    unfold sortByKey
    rw [ih h.2]
    exact insertSorted_of_le key a as h.1

theorem insertSorted_nil (key : α → Int) (a : α) : insertSorted key a [] = [a] := rfl

theorem insertSorted_cons (key : α → Int) (a b : α) (bs : List α) :
    insertSorted key a (b :: bs) =
      if key b < key a then b :: insertSorted key a bs else a :: b :: bs := rfl

theorem insertSorted_append_max (key : α → Int) (x a : α) (l : List α)
    (hx : key x ≤ key a) :
    insertSorted key x (l ++ [a]) = insertSorted key x l ++ [a] := by
  induction l with
  | nil =>
    rw [List.nil_append, insertSorted_cons, if_neg (not_lt.mpr hx), insertSorted_nil]
    rfl
  | cons b bs ih =>
    rw [List.cons_append, insertSorted_cons, insertSorted_cons]
    split
    case isTrue h =>
      rw [ih, List.cons_append]
    case isFalse h =>
      rw [List.cons_append, List.cons_append]

theorem sortByKey_append_max (key : α → Int) (a : α) (l : List α)
    (h : ∀ y ∈ l, key y ≤ key a) :
    sortByKey key (l ++ [a]) = sortByKey key l ++ [a] := by
  induction l with
  | nil => rfl
  | cons x xs ih =>
    rw [List.cons_append]
    unfold sortByKey
    rw [ih (fun y hy => h y (List.mem_cons_of_mem x hy))]
    exact insertSorted_append_max key x a _ (h x (List.mem_cons_self x xs))

theorem sortByKey_length (key : α → Int) (l : List α) :
    (sortByKey key l).length = l.length :=
  (sortByKey_perm key l).length_eq

/-- Python's slice `rows[-k:]`: for `k > 0` the last `min k (length)` elements;
for `k = 0` the index `-0` is `0` and the slice is the whole list. -/
def pySliceLast (k : Nat) (l : List α) : List α :=
  if k = 0 then l else l.drop (l.length - k)

/-- Models `weekly_reports.trim_csv_to_n_weeks`: an absent file is left untouched;
otherwise all rows are read and sorted by `week_start`, and only when there
are more than `weeks_no` of them is the file rewritten (one header plus the
kept slice `rows[-weeks_no:]`); otherwise the file is not rewritten. -/
def trim_csv_to_n_weeks (weeks_no : Nat) (store : Option CsvFile) : Option CsvFile :=
  match store with
  | none => none
  | some f =>
    let rows := sortByKey TrendRow.week_start f.rows
    if weeks_no < rows.length then some ⟨1, pySliceLast weeks_no rows⟩
    else some f

/-- **C5 (amended).** For a retention of at least 1, trimming an existing
store leaves at most `retention` rows; when the store already has at most
`retention` rows the file is returned unchanged (no rewrite); and when it has
more, the kept rows are exactly the trailing `retention` rows of the stable
`week_start`-sort of the original rows — a permutation of the original rows
ordered by `week_start`, i.e. the chronologically latest ones. -/
theorem trim_csv_to_n_weeks_correct (retention : Nat) (f : CsvFile)
    (hr : 1 ≤ retention) :
    ∃ g, trim_csv_to_n_weeks retention (some f) = some g ∧
      g.rows.length ≤ retention ∧
      (f.rows.length ≤ retention → g = f) ∧
      (retention < f.rows.length →
        g.rows = (sortByKey TrendRow.week_start f.rows).drop (f.rows.length - retention)) ∧
      (sortByKey TrendRow.week_start f.rows).Perm f.rows ∧
      (sortByKey TrendRow.week_start f.rows).Pairwise
        (fun a b => a.week_start ≤ b.week_start) := by
  unfold trim_csv_to_n_weeks
  dsimp only
  rw [sortByKey_length]
  split
  case isTrue hlen =>
    refine ⟨⟨1, pySliceLast retention (sortByKey TrendRow.week_start f.rows)⟩, rfl,
      ?_, ?_, ?_, sortByKey_perm _ _, sortByKey_pairwise _ _⟩
    · unfold pySliceLast
      rw [if_neg (by omega)]
      rw [List.length_drop, sortByKey_length]
      omega
    · intro hle
      omega
    · intro _
      unfold pySliceLast
      rw [if_neg (by omega), sortByKey_length]
  case isFalse hlen =>
    refine ⟨f, rfl, by omega, fun _ => rfl, by omega,
      sortByKey_perm _ _, sortByKey_pairwise _ _⟩

/-- Witness for C5: retention 1 on a two-row store keeps the later row. -/
theorem trim_csv_to_n_weeks_correct_witness :
    ∃ g, trim_csv_to_n_weeks 1 (some ⟨1, [⟨7, 13, 4⟩, ⟨0, 6, 3⟩]⟩) = some g ∧
      g.rows.length ≤ 1 ∧
      ((2 : Nat) ≤ 1 → g = ⟨1, [⟨7, 13, 4⟩, ⟨0, 6, 3⟩]⟩) ∧
      (1 < (2 : Nat) →
        g.rows = (sortByKey TrendRow.week_start [⟨7, 13, 4⟩, ⟨0, 6, 3⟩]).drop 1) ∧
      (sortByKey TrendRow.week_start [⟨7, 13, 4⟩, ⟨0, 6, 3⟩]).Perm
        [⟨7, 13, 4⟩, ⟨0, 6, 3⟩] ∧
      (sortByKey TrendRow.week_start [⟨7, 13, 4⟩, ⟨0, 6, 3⟩]).Pairwise
        (fun a b => a.week_start ≤ b.week_start) :=
  trim_csv_to_n_weeks_correct 1 ⟨1, [⟨7, 13, 4⟩, ⟨0, 6, 3⟩]⟩ (by decide)

/-- **C5 counterexample.** With retention 0 and a one-row store, Python's
`rows[-0:]` slice keeps every row, so the trimmed store still has 1 > 0 rows:
the claim's bound fails at retention 0. -/
theorem trim_csv_to_n_weeks_retention_zero_cex :
    trim_csv_to_n_weeks 0 (some ⟨1, [⟨0, 6, 3⟩]⟩) = some ⟨1, [⟨0, 6, 3⟩]⟩ ∧
    ¬ ((1 : Nat) ≤ 0) := by decide

/-- Models `weekly_reports.save_weekly_results_to_csv`: append one data row to the
trend CSV for the window (dates formatted `YYYY-MM-DD`), writing the header
line first exactly when the file did not yet exist. -/
def save_weekly_results_to_csv (week_start week_end : DateTime) (attacks_count : Nat)
    (store : Option CsvFile) : Option CsvFile :=
  match store with
  | none => some ⟨1, [⟨week_start.day, week_end.day, attacks_count⟩]⟩
  | some f => some ⟨f.headers, f.rows ++ [⟨week_start.day, week_end.day, attacks_count⟩]⟩

/-- The store-present branch of `generate_weekly_reports` (before trimming):
if the most recently completed week's key is already present, the file is
rewritten (one header line) without every row matching that key and the
freshly queried row is appended; otherwise the fresh row is just appended. -/
def update_last_week (env : DbEnv) (cust_id : String)
    (last_week_start last_week_end : DateTime) (f : CsvFile) : Option CsvFile :=
  if check_week_exists_in_csv last_week_start last_week_end (some f) then
    let rows := f.rows.filter
      (fun row => !(matchKeyB last_week_start.day last_week_end.day row))
    save_weekly_results_to_csv last_week_start last_week_end
      (get_attacks_count_for_week env last_week_start last_week_end cust_id)
      (some ⟨1, rows⟩)
  else
    save_weekly_results_to_csv last_week_start last_week_end
      (get_attacks_count_for_week env last_week_start last_week_end cust_id)
      (some f)

/-- A list none of whose elements satisfies `p` is unchanged by filtering
with the negation of `p`. -/
theorem filter_not_of_any_false (p : α → Bool) (l : List α) (h : l.any p = false) :
    l.filter (fun x => !(p x)) = l := by
  rw [List.filter_eq_self]
  intro a ha
  simp only [List.any_eq_false] at h
  simp [h a ha]

/-- Resolving both branches of `update_last_week` into one shape (for a store
with the single header every writer of this program produces). -/
theorem update_last_week_eq (env : DbEnv) (cust_id : String)
    (lws lwe : DateTime) (f : CsvFile) (hh : f.headers = 1) :
    update_last_week env cust_id lws lwe f =
      some ⟨1, f.rows.filter (fun row => !(matchKeyB lws.day lwe.day row)) ++
        [⟨lws.day, lwe.day, get_attacks_count_for_week env lws lwe cust_id⟩]⟩ := by
  unfold update_last_week
  split
  case isTrue hex => rfl
  case isFalse hex =>
    unfold check_week_exists_in_csv at hex
    rw [Bool.not_eq_true] at hex
    dsimp only at hex
    unfold save_weekly_results_to_csv
    dsimp only
    rw [hh, filter_not_of_any_false _ _ hex]

/-- **C6.** When the trend store is present, the pre-trim update refreshes
only the most recently completed week: the rewritten store is exactly the
original rows with every row matching the week's `(week_start, week_end)` key
deleted — all other rows carried over unchanged and in order — followed by
the one freshly queried row for that week. -/
theorem update_last_week_frame (env : DbEnv) (cust_id : String)
    (lws lwe : DateTime) (f : CsvFile) :
    ∃ g, update_last_week env cust_id lws lwe f = some g ∧
      g.rows = f.rows.filter (fun row => !(matchKeyB lws.day lwe.day row)) ++
        [⟨lws.day, lwe.day, get_attacks_count_for_week env lws lwe cust_id⟩] ∧
      (∀ r ∈ f.rows, matchKeyB lws.day lwe.day r = false → r ∈ g.rows) ∧
      (∀ r ∈ g.rows, matchKeyB lws.day lwe.day r = true →
        r = ⟨lws.day, lwe.day, get_attacks_count_for_week env lws lwe cust_id⟩) := by
  unfold update_last_week
  split
  case isTrue hex =>
    refine ⟨_, rfl, rfl, ?_, ?_⟩
    · intro r hr hkey
      apply List.mem_append_left
      rw [List.mem_filter]
      exact ⟨hr, by rw [hkey]; rfl⟩
    · intro r hr hkey
      rw [List.mem_append] at hr
      rcases hr with hr | hr
      · rw [List.mem_filter] at hr
        rw [hkey] at hr
        exact absurd hr.2 (by decide)
      · rw [List.mem_singleton] at hr
        exact hr
  case isFalse hex =>
    unfold check_week_exists_in_csv at hex
    rw [Bool.not_eq_true] at hex
    dsimp only at hex
    refine ⟨_, rfl, ?_, ?_, ?_⟩
    · dsimp only
      rw [filter_not_of_any_false _ _ hex]
    · intro r hr _
      dsimp only
      exact List.mem_append_left _ hr
    · intro r hr hkey
      dsimp only at hr
      rw [List.mem_append] at hr
      rcases hr with hr | hr
      · rw [List.any_eq_false] at hex
        exact absurd hkey (by simp [hex r hr])
      · rw [List.mem_singleton] at hr
        exact hr

/-- An environment where no per-month database exists; every query would
answer 0 anyway.  Used to instantiate witnesses and counterexamples. -/
def cexEnv : DbEnv := ⟨fun _ _ _ => false, fun _ _ _ _ _ => Except.ok 0⟩

/-- Witness for C6 on a concrete one-row store whose row matches the key. -/
theorem update_last_week_frame_witness :
    ∃ g, update_last_week cexEnv "EA" ⟨0, 0⟩ ⟨6, 0⟩ ⟨1, [⟨0, 6, 7⟩]⟩ = some g ∧
      g.rows = [(⟨0, 6, 7⟩ : TrendRow)].filter (fun row => !(matchKeyB 0 6 row)) ++
        [⟨0, 6, get_attacks_count_for_week cexEnv ⟨0, 0⟩ ⟨6, 0⟩ "EA"⟩] ∧
      (∀ r ∈ [(⟨0, 6, 7⟩ : TrendRow)], matchKeyB 0 6 r = false → r ∈ g.rows) ∧
      (∀ r ∈ g.rows, matchKeyB 0 6 r = true →
        r = ⟨0, 6, get_attacks_count_for_week cexEnv ⟨0, 0⟩ ⟨6, 0⟩ "EA"⟩) :=
  update_last_week_frame cexEnv "EA" ⟨0, 0⟩ ⟨6, 0⟩ ⟨1, [⟨0, 6, 7⟩]⟩

/-- One row of the daily breakdown CSV. -/
structure DailyRow where
  date : Int
  day_name : String
  attacks_count : Nat
deriving DecidableEq, Repr

/-- Rendered HTML artifacts, abstracted to which opaque static template is
instantiated and with which data rows (the HTML/JS text itself is opaque
per-template static text). -/
inductive RenderedDoc where
  | errorPlaceholder : RenderedDoc
  | weeklyChart (rows : List (Int × Nat)) : RenderedDoc
  | combinedChart (daily : List (Int × String × Nat)) (weekly : List (Int × Nat)) :
      RenderedDoc
deriving DecidableEq, Repr

/-- Models `weekly_reports.generate_google_chart`: an error-placeholder page when the
trend CSV file does not exist; otherwise the chart template filled with the
`(week_end, attacks_count)` pairs sorted by date. -/
def generate_google_chart (store : Option CsvFile) : RenderedDoc :=
  match store with
  | none => RenderedDoc.errorPlaceholder
  | some f =>
    RenderedDoc.weeklyChart
      (sortByKey (fun rc => rc.1)
        (f.rows.map (fun row => (row.week_end, row.attacks_count))))

/-- Models `weekly_reports.generate_combined_html_chart`: reads the daily and weekly
CSVs (each treated as empty when its file is absent), sorts both by date, and
always instantiates the combined two-chart template. -/
def generate_combined_html_chart (daily_store : Option (List DailyRow))
    (weekly_store : Option CsvFile) : RenderedDoc :=
  let daily_chart_data :=
    match daily_store with
    | none => []
    | some rows => rows.map (fun r => (r.date, r.day_name, r.attacks_count))
  let weekly_chart_data :=
    match weekly_store with
    | none => []
    | some f => f.rows.map (fun row => (row.week_end, row.attacks_count))
  RenderedDoc.combinedChart (sortByKey (fun x => x.1) daily_chart_data)
    (sortByKey (fun x => x.1) weekly_chart_data)

/-- **C9 counterexample.** An existing trend CSV with zero data rows renders a
chart with an empty data table, not the error placeholder: the renderer's
failure path keys on the file being absent, not on the rows being empty. -/
theorem generate_google_chart_empty_rows_cex :
    generate_google_chart (some ⟨1, []⟩) = RenderedDoc.weeklyChart [] ∧
    generate_google_chart (some ⟨1, []⟩) ≠ RenderedDoc.errorPlaceholder := by decide

/-- **C9 (amended).** The single-chart renderer produces the explicit error
placeholder exactly when the trend CSV file is absent (its only failure
path); an existing store, even with no rows, renders a chart, and the
combined renderer never produces the placeholder. -/
theorem renderer_error_iff_absent (store : Option CsvFile) :
    (generate_google_chart store = RenderedDoc.errorPlaceholder ↔ store = none) ∧
    (∀ (d : Option (List DailyRow)) (w : Option CsvFile),
      generate_combined_html_chart d w ≠ RenderedDoc.errorPlaceholder) := by
  constructor
  · cases store with
    | none => simp [generate_google_chart]
    | some f => simp [generate_google_chart]
  · intro d w h
    unfold generate_combined_html_chart at h
    exact RenderedDoc.noConfusion h

/-- The row written for one window during the bootstrap pass. -/
def mkTrendRow (env : DbEnv) (cust_id : String) (w : DateTime × DateTime) : TrendRow :=
  ⟨w.1.day, w.2.day, get_attacks_count_for_week env w.1 w.2 cust_id⟩

/-- The freshly queried row for the most recently completed week. -/
def freshRow (env : DbEnv) (cust_id : String) (R : DateTime) (W : Int) : TrendRow :=
  ⟨(get_one_week_behind R W).1.day, (get_one_week_behind R W).2.day,
    get_attacks_count_for_week env
      (get_one_week_behind R W).1 (get_one_week_behind R W).2 cust_id⟩

/-- The trend-store effect of `weekly_reports.generate_weekly_reports` for the
period file `weekly_trends_{week_end}.csv` (charts, the daily CSV and email
are separate artifacts, not part of the store): absent store — query and
append every one of the `weeks_no` windows in order, creating the file;
present store — refresh only the most recently completed week via
`update_last_week`, then trim to `weeks_no` rows. -/
def generate_weekly_reports (env : DbEnv) (cust_id : String) (week_end_day : Int)
    (weeks_no : Nat) (current_date : DateTime) (store : Option CsvFile) : Option CsvFile :=
  let last_week := get_one_week_behind current_date week_end_day
  let n_weeks := get_n_weeks_intervals current_date weeks_no week_end_day
  match store with
  | none =>
    n_weeks.foldl
      (fun st w =>
        save_weekly_results_to_csv w.1 w.2
          (get_attacks_count_for_week env w.1 w.2 cust_id) st)
      none
  | some f =>
    trim_csv_to_n_weeks weeks_no (update_last_week env cust_id last_week.1 last_week.2 f)

/-- The bootstrap fold appends one queried row per window, keeping the single
header written by the first save. -/
theorem bootstrap_foldl (env : DbEnv) (cust_id : String) :
    ∀ (l : List (DateTime × DateTime)) (acc : List TrendRow),
      l.foldl
        (fun st w =>
          save_weekly_results_to_csv w.1 w.2
            (get_attacks_count_for_week env w.1 w.2 cust_id) st)
        (some ⟨1, acc⟩) =
      some ⟨1, acc ++ l.map (mkTrendRow env cust_id)⟩ := by
  intro l
  induction l with
  | nil =>
    intro acc
    simp
  | cons w ws ih =>
    intro acc
    rw [List.foldl_cons]
    have hsave : save_weekly_results_to_csv w.1 w.2
        (get_attacks_count_for_week env w.1 w.2 cust_id) (some ⟨1, acc⟩) =
        some ⟨1, acc ++ [mkTrendRow env cust_id w]⟩ := rfl
    rw [hsave, ih, List.map_cons, List.append_assoc]
    rfl

/-- On an absent store with at least one window, the bootstrap creates the
file with one row per window, in window order, under a single header. -/
theorem generate_weekly_reports_bootstrap_eq (env : DbEnv) (cust_id : String)
    (W : Int) (k : Nat) (R : DateTime) (hk : 1 ≤ k) :
    generate_weekly_reports env cust_id W k R none =
      some ⟨1, (get_n_weeks_intervals R k W).map (mkTrendRow env cust_id)⟩ := by
  obtain ⟨w, ws, hnw⟩ : ∃ w ws, get_n_weeks_intervals R k W = w :: ws := by
    cases h : get_n_weeks_intervals R k W with
    | nil =>
      exfalso
      have hlen : (get_n_weeks_intervals R k W).length = k := by
        simp [get_n_weeks_intervals]
      rw [h] at hlen
      simp at hlen
      omega
    | cons w ws => exact ⟨w, ws, rfl⟩
  unfold generate_weekly_reports
  dsimp only
  rw [hnw, List.foldl_cons]
  have hsave : save_weekly_results_to_csv w.1 w.2
      (get_attacks_count_for_week env w.1 w.2 cust_id) none =
      some ⟨1, [mkTrendRow env cust_id w]⟩ := rfl
  rw [hsave, bootstrap_foldl, List.map_cons]
  rfl

/-- Like `get_n_weeks_intervals_chain_lt` but for start days. -/
theorem consecutive_windows_lt_start (R : DateTime) (W : Int) :
    (get_one_week_behind (subDays R 7) W).1.day < (get_one_week_behind R W).1.day := by
  rw [get_one_week_behind_eq, get_one_week_behind_eq]
  unfold subDays
  dsimp only
  omega

/-- The windows are strictly ascending by their start day. -/
theorem get_n_weeks_intervals_chain_lt_start (R : DateTime) (k : Nat) (W : Int) :
    (get_n_weeks_intervals R k W).Chain' (fun w1 w2 => w1.1.day < w2.1.day) := by
  induction k generalizing R with
  | zero => simp [get_n_weeks_intervals]
  | succ k ih =>
    rw [get_n_weeks_intervals_succ, List.chain'_append]
    refine ⟨ih (subDays R 7), List.chain'_singleton _, ?_⟩
    intro x hx y hy
    simp only [List.head?_cons, Option.mem_def, Option.some.injEq] at hy
    subst hy
    rw [Option.mem_def, get_n_weeks_intervals_getLast] at hx
    rcases k with _ | k
    · exact absurd hx (by simp)
    · rw [if_neg (Nat.succ_ne_zero k), Option.some.injEq] at hx
      subst hx
      exact consecutive_windows_lt_start R W

/-- **C4 (amended).** For at least one requested window, running the update on
an absent store creates it: a single header line, exactly `weeks_no` rows, one
freshly queried row per requested window in window (ascending) order, with
strictly increasing `week_start` and therefore pairwise distinct
`(week_start, week_end)` keys. -/
theorem generate_weekly_reports_bootstrap (env : DbEnv) (cust_id : String)
    (W : Int) (k : Nat) (R : DateTime) (hk : 1 ≤ k) :
    ∃ g, generate_weekly_reports env cust_id W k R none = some g ∧
      g.headers = 1 ∧
      g.rows = (get_n_weeks_intervals R k W).map (mkTrendRow env cust_id) ∧
      g.rows.length = k ∧
      g.rows.Chain' (fun r1 r2 => r1.week_start < r2.week_start) ∧
      g.rows.Pairwise
        (fun r1 r2 => r1.week_start ≠ r2.week_start ∨ r1.week_end ≠ r2.week_end) := by
  have hchain : ((get_n_weeks_intervals R k W).map (mkTrendRow env cust_id)).Chain'
      (fun r1 r2 => r1.week_start < r2.week_start) := by
    rw [List.chain'_map]
    exact get_n_weeks_intervals_chain_lt_start R k W
  refine ⟨_, generate_weekly_reports_bootstrap_eq env cust_id W k R hk, rfl, rfl,
    by simp [get_n_weeks_intervals], hchain, ?_⟩
  have htrans : IsTrans TrendRow (fun r1 r2 => r1.week_start < r2.week_start) :=
    ⟨fun a b c hab hbc => lt_trans hab hbc⟩
  rw [List.chain'_iff_pairwise] at hchain
  exact hchain.imp (fun h => Or.inl (ne_of_lt h))

/-- Witness for C4 with one window at the epoch reference date. -/
theorem generate_weekly_reports_bootstrap_witness :
    ∃ g, generate_weekly_reports cexEnv "EA" 6 1 ⟨0, 0⟩ none = some g ∧
      g.headers = 1 ∧
      g.rows = (get_n_weeks_intervals ⟨0, 0⟩ 1 6).map (mkTrendRow cexEnv "EA") ∧
      g.rows.length = 1 ∧
      g.rows.Chain' (fun r1 r2 => r1.week_start < r2.week_start) ∧
      g.rows.Pairwise
        (fun r1 r2 => r1.week_start ≠ r2.week_start ∨ r1.week_end ≠ r2.week_end) :=
  generate_weekly_reports_bootstrap cexEnv "EA" 6 1 ⟨0, 0⟩ (by decide)

/-- **C4 counterexample.** With zero requested windows and an absent store,
the bootstrap loop runs zero times and never creates the file: there is no
store afterwards, in particular none with a single header line and zero rows,
falsifying the claim at `weeks_no = 0`. -/
theorem generate_weekly_reports_zero_weeks_cex :
    generate_weekly_reports cexEnv "EA" 6 0 ⟨0, 0⟩ none = none := rfl

theorem any_false_of_subset {p : α → Bool} {l l2 : List α}
    (hsub : ∀ a ∈ l2, a ∈ l) (h : l.any p = false) : l2.any p = false := by
  rw [List.any_eq_false] at h ⊢
  exact fun a ha => h a (hsub a ha)

theorem filter_not_any_false (p : α → Bool) (l : List α) :
    (l.filter (fun x => !(p x))).any p = false := by
  rw [List.any_eq_false]
  intro a ha
  rw [List.mem_filter] at ha
  simpa using ha.2

theorem pySliceLast_zero (l : List α) : pySliceLast 0 l = l := rfl

theorem pySliceLast_of_ne (k : Nat) (hk : k ≠ 0) (l : List α) :
    pySliceLast k l = l.drop (l.length - k) := by
  unfold pySliceLast
  rw [if_neg hk]

theorem matchKeyB_freshRow (env : DbEnv) (cust_id : String) (R : DateTime) (W : Int) :
    matchKeyB (get_one_week_behind R W).1.day (get_one_week_behind R W).2.day
      (freshRow env cust_id R W) = true := by
  unfold matchKeyB freshRow
  simp

/-- The shape a store has right after a run whose reference date is `R`:
rows none of which carry the current week's key, all starting no later than
the current week, followed by the current week's fresh row; and either the
row count is within retention, or retention is 0 and the leading rows are
sorted.  Such a store is a fixed point of the update. -/
def GoodTail (R : DateTime) (W : Int) (k : Nat) (D : List TrendRow) : Prop :=
  D.any (matchKeyB (get_one_week_behind R W).1.day (get_one_week_behind R W).2.day) = false ∧
  (∀ r ∈ D, r.week_start ≤ (get_one_week_behind R W).1.day) ∧
  (D.length + 1 ≤ k ∨ (k = 0 ∧ D.Pairwise (fun a b => a.week_start ≤ b.week_start)))

/-- Running the update on a `GoodTail`-shaped store changes nothing. -/
theorem generate_weekly_reports_fixed_point (env : DbEnv) (cust_id : String)
    (W : Int) (k : Nat) (R : DateTime) (D : List TrendRow)
    (hD : GoodTail R W k D) :
    generate_weekly_reports env cust_id W k R
        (some ⟨1, D ++ [freshRow env cust_id R W]⟩) =
      some ⟨1, D ++ [freshRow env cust_id R W]⟩ := by
  obtain ⟨hany, hle, hlen⟩ := hD
  unfold generate_weekly_reports
  dsimp only
  rw [update_last_week_eq env cust_id _ _ _ rfl]
  have hfilter : (D ++ [freshRow env cust_id R W]).filter
      (fun row => !(matchKeyB (get_one_week_behind R W).1.day
        (get_one_week_behind R W).2.day row)) = D := by
    rw [List.filter_append, filter_not_of_any_false _ _ hany]
    simp [matchKeyB_freshRow env cust_id R W]
  rw [hfilter]
  show trim_csv_to_n_weeks k (some ⟨1, D ++ [freshRow env cust_id R W]⟩) = _
  have hmax : ∀ y ∈ D, TrendRow.week_start y ≤
      TrendRow.week_start (freshRow env cust_id R W) := fun y hy => hle y hy
  have hsorted_eq : sortByKey TrendRow.week_start (D ++ [freshRow env cust_id R W]) =
      sortByKey TrendRow.week_start D ++ [freshRow env cust_id R W] :=
    sortByKey_append_max _ _ _ hmax
  have hL : (sortByKey TrendRow.week_start (D ++ [freshRow env cust_id R W])).length =
      D.length + 1 := by
    rw [sortByKey_length, List.length_append]
    rfl
  unfold trim_csv_to_n_weeks
  dsimp only
  split
  case isTrue hlt =>
    rw [hL] at hlt
    rcases hlen with hcase | ⟨hk0, hsortD⟩
    · exact absurd hlt (by omega)
    · subst hk0
      rw [pySliceLast_zero, hsorted_eq, sortByKey_of_pairwise _ _ hsortD]
  case isFalse hge => rfl

/-- The present-store branch, written as trim of filter-plus-fresh-row. -/
theorem generate_weekly_reports_present_eq (env : DbEnv) (cust_id : String)
    (W : Int) (k : Nat) (R : DateTime) (f : CsvFile) (hh : f.headers = 1) :
    generate_weekly_reports env cust_id W k R (some f) =
      trim_csv_to_n_weeks k (some ⟨1,
        f.rows.filter (fun row => !(matchKeyB (get_one_week_behind R W).1.day
          (get_one_week_behind R W).2.day row)) ++ [freshRow env cust_id R W]⟩) := by
  unfold generate_weekly_reports
  dsimp only
  rw [update_last_week_eq env cust_id _ _ _ hh]
  rfl

/-- Trimming rows-plus-fresh-row yields a `GoodTail`-shaped store when no
leading row matches the current week's key and none starts later than it. -/
theorem trim_goodtail (k : Nat) (R : DateTime) (W : Int) (env : DbEnv) (cust_id : String)
    (rows1 : List TrendRow)
    (hany : rows1.any (matchKeyB (get_one_week_behind R W).1.day
      (get_one_week_behind R W).2.day) = false)
    (hle : ∀ r ∈ rows1, r.week_start ≤ (get_one_week_behind R W).1.day) :
    ∃ D, trim_csv_to_n_weeks k (some ⟨1, rows1 ++ [freshRow env cust_id R W]⟩) =
        some ⟨1, D ++ [freshRow env cust_id R W]⟩ ∧ GoodTail R W k D := by
  have hmax : ∀ y ∈ rows1, TrendRow.week_start y ≤
      TrendRow.week_start (freshRow env cust_id R W) := fun y hy => hle y hy
  have hsorted_eq : sortByKey TrendRow.week_start (rows1 ++ [freshRow env cust_id R W]) =
      sortByKey TrendRow.week_start rows1 ++ [freshRow env cust_id R W] :=
    sortByKey_append_max _ _ _ hmax
  have hL : (sortByKey TrendRow.week_start (rows1 ++ [freshRow env cust_id R W])).length =
      rows1.length + 1 := by
    rw [sortByKey_length, List.length_append]
    rfl
  unfold trim_csv_to_n_weeks
  dsimp only
  split
  case isTrue hlt =>
    rw [hsorted_eq]
    rcases Nat.eq_zero_or_pos k with hk0 | hkpos
    · subst hk0
      refine ⟨sortByKey TrendRow.week_start rows1, by rw [pySliceLast_zero], ?_, ?_, ?_⟩
      · exact any_false_of_subset
          (fun a ha => (sortByKey_perm _ _).mem_iff.mp ha) hany
      · exact fun r hr => hle r ((sortByKey_perm _ _).mem_iff.mp hr)
      · right
        exact ⟨rfl, sortByKey_pairwise _ _⟩
    · have hk0 : k ≠ 0 := by omega
      rw [pySliceLast_of_ne k hk0]
      have hlenS : (sortByKey TrendRow.week_start rows1).length = rows1.length :=
        sortByKey_length _ _
      have hLL : (sortByKey TrendRow.week_start rows1 ++
          [freshRow env cust_id R W]).length = rows1.length + 1 := by
        rw [List.length_append, hlenS]
        rfl
      rw [hL] at hlt
      have hdrop : (sortByKey TrendRow.week_start rows1 ++
          [freshRow env cust_id R W]).drop (rows1.length + 1 - k) =
          (sortByKey TrendRow.week_start rows1).drop (rows1.length + 1 - k) ++
            [freshRow env cust_id R W] := by
        rw [List.drop_append_of_le_length (by rw [hlenS]; omega)]
      rw [hLL, hdrop]
      refine ⟨(sortByKey TrendRow.week_start rows1).drop (rows1.length + 1 - k),
        rfl, ?_, ?_, ?_⟩
      · exact any_false_of_subset
          (fun a ha => (sortByKey_perm _ _).mem_iff.mp (List.mem_of_mem_drop ha)) hany
      · exact fun r hr => hle r ((sortByKey_perm _ _).mem_iff.mp (List.mem_of_mem_drop hr))
      · left
        rw [List.length_drop, hlenS]
        omega
  case isFalse hge =>
    refine ⟨rows1, rfl, hany, hle, ?_⟩
    left
    rw [hL] at hge
    omega

/-- After one run on a well-formed present store, the store is
`GoodTail`-shaped. -/
theorem generate_weekly_reports_present_shape (env : DbEnv) (cust_id : String)
    (W : Int) (k : Nat) (R : DateTime) (f : CsvFile) (hh : f.headers = 1)
    (hle : ∀ r ∈ f.rows, r.week_start ≤ (get_one_week_behind R W).1.day) :
    ∃ D, generate_weekly_reports env cust_id W k R (some f) =
        some ⟨1, D ++ [freshRow env cust_id R W]⟩ ∧ GoodTail R W k D := by
  rw [generate_weekly_reports_present_eq env cust_id W k R f hh]
  exact trim_goodtail k R W env cust_id _ (filter_not_any_false _ _)
    (fun r hr => hle r (List.mem_of_mem_filter hr))

/-- After a bootstrap run, the store is `GoodTail`-shaped. -/
theorem bootstrap_tail_good (env : DbEnv) (cust_id : String) (W : Int) (kp : Nat)
    (R : DateTime) :
    ∃ D, generate_weekly_reports env cust_id W (kp + 1) R none =
        some ⟨1, D ++ [freshRow env cust_id R W]⟩ ∧ GoodTail R W (kp + 1) D := by
  have hcf : (get_one_week_behind R W).1.day = (get_one_week_behind R W).2.day - 6 := by
    rw [get_one_week_behind_eq]
  refine ⟨(get_n_weeks_intervals (subDays R 7) kp W).map (mkTrendRow env cust_id),
    ?_, ?_, ?_, ?_⟩
  · rw [generate_weekly_reports_bootstrap_eq env cust_id W (kp + 1) R (by omega)]
    rw [get_n_weeks_intervals_succ, List.map_append]
    rfl
  · rw [List.any_eq_false]
    intro r hr
    rw [List.mem_map] at hr
    obtain ⟨w, hw, hrw⟩ := hr
    have hmem := get_n_weeks_intervals_mem (subDays R 7) kp W w hw
    have hshift := consecutive_windows_lt R W
    subst hrw
    unfold matchKeyB mkTrendRow
    dsimp only
    intro hcontra
    rw [Bool.and_eq_true, beq_iff_eq, beq_iff_eq] at hcontra
    have h1 := hmem.1
    omega
  · intro r hr
    rw [List.mem_map] at hr
    obtain ⟨w, hw, hrw⟩ := hr
    have hmem := get_n_weeks_intervals_mem (subDays R 7) kp W w hw
    subst hrw
    unfold mkTrendRow
    dsimp only
    have h1 := hmem.1
    have hsub : w.1.day = w.2.day - 6 := by
      rw [hmem.2.1]
      rfl
    have hshift := consecutive_windows_lt R W
    omega
  · left
    rw [List.length_map]
    have hlen : (get_n_weeks_intervals (subDays R 7) kp W).length = kp := by
      simp [get_n_weeks_intervals]
    omega

/-- **C2 (amended).** Running the trend-store update twice with the same
arguments and unchanged per-month data yields an identical store — provided
the starting store is absent, or is a well-formed store (single header) none
of whose rows has a `week_start` later than the most recently completed
week's start (every store this program itself writes satisfies both).  A
pre-existing row dated after the current week can break byte-identity, see
the counterexample. -/
theorem generate_weekly_reports_idempotent (env : DbEnv) (cust_id : String)
    (W : Int) (k : Nat) (R : DateTime) (store : Option CsvFile)
    (hwf : ∀ f, store = some f → f.headers = 1 ∧
      ∀ r ∈ f.rows, r.week_start ≤ (get_one_week_behind R W).1.day) :
    generate_weekly_reports env cust_id W k R
        (generate_weekly_reports env cust_id W k R store) =
      generate_weekly_reports env cust_id W k R store := by
  cases store with
  | some f =>
    obtain ⟨hh, hle⟩ := hwf f rfl
    obtain ⟨D, heq, hgood⟩ :=
      generate_weekly_reports_present_shape env cust_id W k R f hh hle
    rw [heq]
    exact generate_weekly_reports_fixed_point env cust_id W k R D hgood
  | none =>
    rcases k with _ | kp
    · have hnone : generate_weekly_reports env cust_id W 0 R none = none := rfl
      rw [hnone, hnone]
    · obtain ⟨D, heq, hgood⟩ := bootstrap_tail_good env cust_id W kp R
      rw [heq]
      exact generate_weekly_reports_fixed_point env cust_id W (kp + 1) R D hgood

/-- Witness for C2: a second run after bootstrapping from an absent store. -/
theorem generate_weekly_reports_idempotent_witness :
    generate_weekly_reports cexEnv "EA" 6 1 ⟨0, 0⟩
        (generate_weekly_reports cexEnv "EA" 6 1 ⟨0, 0⟩ none) =
      generate_weekly_reports cexEnv "EA" 6 1 ⟨0, 0⟩ none :=
  generate_weekly_reports_idempotent cexEnv "EA" 6 1 ⟨0, 0⟩ none (fun f h => nomatch h)

/-- **C2 counterexample.** A pre-existing store holding a future-dated row and
a past row is not a fixed point of two runs: the first run appends the fresh
week row, and trimming sorts it before the future row; the second run deletes
and re-appends the fresh row, moving it after the future row — the same rows
in a different order, so the files differ byte for byte. -/
theorem generate_weekly_reports_not_idempotent_cex :
    generate_weekly_reports cexEnv "EA" 6 2 ⟨0, 0⟩
        (generate_weekly_reports cexEnv "EA" 6 2 ⟨0, 0⟩
          (some ⟨1, [⟨100, 106, 1⟩, ⟨-20, -14, 2⟩]⟩)) ≠
      generate_weekly_reports cexEnv "EA" 6 2 ⟨0, 0⟩
        (some ⟨1, [⟨100, 106, 1⟩, ⟨-20, -14, 2⟩]⟩) := by decide
